import Mathlib

/-!
# Verification of the asa-cli authenticated request pipeline

A shallow embedding, in Lean 4, of the core of the `asa-cli` Go program:
the token provider (`internal/auth/auth.go`), the authenticating transport
(`internal/auth/transport.go`), the organization resolution and the
filter-token grammar (`cmd/root.go`), together with proofs about them.

Modelling conventions:
* Go `time.Time` values are modelled as absolute timestamps in seconds
  (`Int`); `time.Duration` arithmetic becomes integer arithmetic in seconds.
* I/O results (HTTP responses, key files, the on-disk cache) enter the
  model as explicit parameters: `Option`/`Except` values describing what
  the corresponding call would have returned.
* `encoding/json` unmarshalling of a response body is abstracted by a
  decoder function on an abstract body type: `none` models a failed
  `json.Unmarshal`, `some v` a successful one producing `v`.
-/

namespace AsaCli

/-! ## Token provider state (internal/auth/auth.go) -/

/-- `TokenCache` from `internal/auth/auth.go`: the access-token record
`{access_token, token_type, expires_at}`, with the absolute expiry
timestamp in seconds. -/
structure TokenCache where
  accessToken : String
  tokenType   : String
  expiresAt   : Int
deriving DecidableEq, Repr

/-- The 5-minute safety buffer from `GetToken`
(`time.Now().Add(5*time.Minute)`), in seconds. -/
def safetyMargin : Int := 5 * 60

/-- The usability test from `GetToken`:
`time.Now().Add(5*time.Minute).Before(tp.token.ExpiresAt)` —
`Before` is a strict comparison. -/
def tokenUsable (now : Int) (t : TokenCache) : Bool :=
  now + safetyMargin < t.expiresAt

/-- The mutable state a `TokenProvider` reads and writes: its in-memory
record `tp.token` and the content of the on-disk cache file
(`none` models a missing or corrupt file, which `loadCachedToken`
turns into a `nil` record). -/
structure ProviderState where
  memToken  : Option TokenCache
  diskToken : Option TokenCache
deriving DecidableEq, Repr

/-- `if tp.token == nil { tp.token = loadCachedToken() }`: the record
`GetToken` works with after the lazy load step. -/
def loadMem (mem disk : Option TokenCache) : Option TokenCache :=
  match mem with
  | none => disk
  | some t => some t

/-- Outcome of one `GetToken` call: the returned `(token, error)` pair,
the provider state afterwards, and whether `exchangeToken` was invoked. -/
structure GetTokenResult where
  result    : Except String String
  state     : ProviderState
  exchanged : Bool

/-- The tail of `GetToken` once no usable record was found: call
`exchangeToken` (outcome supplied as `exch`), and on success store the
record in memory and run `saveCachedToken` (whose write succeeds exactly
when `diskWriteOk`; its error is discarded by the source). -/
def exchangeAndStore (mem disk : Option TokenCache)
    (exch : Except String TokenCache) (diskWriteOk : Bool) : GetTokenResult :=
  match exch with
  | .error e => ⟨.error e, ⟨mem, disk⟩, true⟩
  | .ok t => ⟨.ok t.accessToken, ⟨some t, if diskWriteOk then some t else disk⟩, true⟩

/-- `TokenProvider.GetToken` from `internal/auth/auth.go` (the body runs
under `tp.mu`; here one call is one atomic function application, the
interleaved version is `Step` below).  `exch` is what `exchangeToken`
would return at this moment, `diskWriteOk` whether the cache-file write
would succeed. -/
def GetToken (st : ProviderState) (now : Int) (exch : Except String TokenCache)
    (diskWriteOk : Bool) : GetTokenResult :=
  let mem := loadMem st.memToken st.diskToken
  match mem with
  | some t =>
    if tokenUsable now t then
      ⟨.ok t.accessToken, ⟨mem, st.diskToken⟩, false⟩
    else
      exchangeAndStore mem st.diskToken exch diskWriteOk
  | none => exchangeAndStore mem st.diskToken exch diskWriteOk

/-- The record `GetToken` consults for the cache test: the in-memory one
if present, otherwise the one lazily loaded from disk. -/
def cachedRecord (st : ProviderState) (t : TokenCache) : Prop :=
  st.memToken = some t ∨ (st.memToken = none ∧ st.diskToken = some t)

lemma exchangeAndStore_exchanged (mem disk : Option TokenCache)
    (exch : Except String TokenCache) (w : Bool) :
    (exchangeAndStore mem disk exch w).exchanged = true := by
  cases exch <;> rfl

lemma getToken_of_usable (st : ProviderState) (now : Int)
    (exch : Except String TokenCache) (w : Bool) (t : TokenCache)
    (h : cachedRecord st t) (hu : tokenUsable now t = true) :
    GetToken st now exch w = ⟨.ok t.accessToken, ⟨some t, st.diskToken⟩, false⟩ := by
  rcases h with hmem | ⟨hmem, hdisk⟩
  · simp [GetToken, loadMem, hmem, hu]
  · simp [GetToken, loadMem, hmem, hdisk, hu]

lemma getToken_of_not_usable (st : ProviderState) (now : Int)
    (exch : Except String TokenCache) (w : Bool) (t : TokenCache)
    (h : cachedRecord st t) (hu : tokenUsable now t = false) :
    GetToken st now exch w = exchangeAndStore (some t) st.diskToken exch w := by
  rcases h with hmem | ⟨hmem, hdisk⟩
  · simp [GetToken, loadMem, hmem, hu]
  · simp [GetToken, loadMem, hmem, hdisk, hu]

lemma tokenUsable_iff (now : Int) (t : TokenCache) :
    tokenUsable now t = true ↔ now + safetyMargin < t.expiresAt := by
  simp [tokenUsable]

/-- **C1.** With a cached record present (in memory, or on disk when the
memory is empty), `GetToken` returns that record's access token with no
exchange if and only if `now` plus the 5-minute margin is strictly before
the record's `expires_at`; starting from an empty cache, two consecutive
calls perform exactly one exchange in total when the record obtained by
the first is still unexpired at the second; and a record with
`expires_at ≤ now + 5 min` triggers a fresh exchange. -/
theorem getToken_cache_discipline :
    (∀ (st : ProviderState) (now : Int) (exch : Except String TokenCache)
        (w : Bool) (t : TokenCache), cachedRecord st t →
      (((GetToken st now exch w).exchanged = false ∧
        (GetToken st now exch w).result = .ok t.accessToken) ↔
        now + safetyMargin < t.expiresAt))
    ∧
    (∀ (now₁ now₂ : Int) (t : TokenCache) (w₁ w₂ : Bool)
        (exch₂ : Except String TokenCache),
      now₂ + safetyMargin < t.expiresAt →
      (GetToken ⟨none, none⟩ now₁ (.ok t) w₁).exchanged = true ∧
      (GetToken (GetToken ⟨none, none⟩ now₁ (.ok t) w₁).state now₂ exch₂ w₂).exchanged
        = false)
    ∧
    (∀ (st : ProviderState) (now : Int) (exch : Except String TokenCache)
        (w : Bool) (t : TokenCache), cachedRecord st t →
      t.expiresAt ≤ now + safetyMargin →
      (GetToken st now exch w).exchanged = true) := by
  refine ⟨?_, ?_, ?_⟩
  · intro st now exch w t hct
    by_cases hu : tokenUsable now t = true
    · rw [getToken_of_usable st now exch w t hct hu]
      simpa using (tokenUsable_iff now t).mp hu
    · rw [getToken_of_not_usable st now exch w t hct (by simpa using hu)]
      constructor
      · intro hcontra
        have := hcontra.1
        rw [exchangeAndStore_exchanged] at this
        exact absurd this (by simp)
      · intro hlt
        exact absurd ((tokenUsable_iff now t).mpr hlt) hu
  · intro now₁ now₂ t w₁ w₂ exch₂ h₂
    have h1 : GetToken ⟨none, none⟩ now₁ (.ok t) w₁ =
        ⟨.ok t.accessToken, ⟨some t, if w₁ then some t else none⟩, true⟩ := by
      simp [GetToken, loadMem, exchangeAndStore]
    refine ⟨by rw [h1], ?_⟩
    rw [h1]
    rw [getToken_of_usable _ now₂ exch₂ w₂ t (Or.inl rfl)
      ((tokenUsable_iff now₂ t).mpr h₂)]
  · intro st now exch w t hct hle
    have hu : tokenUsable now t = false := by
      simp [tokenUsable]
      omega
    rw [getToken_of_not_usable st now exch w t hct hu]
    exact exchangeAndStore_exchanged _ _ _ _

/-- Witness for C1 at concrete inputs: a record expiring at time 1000,
queried at time 0, is served from the cache with no exchange. -/
theorem getToken_cache_discipline_witness :
    (GetToken ⟨some ⟨"tok", "Bearer", 1000⟩, none⟩ 0 (.error "down") true).exchanged
        = false ∧
    (GetToken ⟨some ⟨"tok", "Bearer", 1000⟩, none⟩ 0 (.error "down") true).result
        = .ok "tok" :=
  (getToken_cache_discipline.1 ⟨some ⟨"tok", "Bearer", 1000⟩, none⟩ 0
    (.error "down") true ⟨"tok", "Bearer", 1000⟩ (Or.inl rfl)).mpr (by decide)

/-- **C10.** When no usable cached record exists and the exchange succeeds,
`GetToken` returns the fresh access token with no error and stores the
record in memory even when the cache-file write fails; moreover the
returned result and the in-memory record never depend on whether the
disk write succeeds. -/
theorem getToken_ignores_save_failure :
    (∀ (st : ProviderState) (now : Int) (t : TokenCache),
      (∀ u, cachedRecord st u → tokenUsable now u = false) →
      (GetToken st now (.ok t) false).result = .ok t.accessToken ∧
      (GetToken st now (.ok t) false).state.memToken = some t ∧
      (GetToken st now (.ok t) false).state.diskToken = st.diskToken ∧
      (GetToken st now (.ok t) false).exchanged = true)
    ∧
    (∀ (st : ProviderState) (now : Int) (exch : Except String TokenCache),
      (GetToken st now exch false).result = (GetToken st now exch true).result ∧
      (GetToken st now exch false).state.memToken
        = (GetToken st now exch true).state.memToken) := by
  constructor
  · intro st now t hno
    rcases hm : loadMem st.memToken st.diskToken with _ | u
    · have hg : GetToken st now (.ok t) false =
          exchangeAndStore none st.diskToken (.ok t) false := by
        simp only [GetToken, hm]
      rw [hg]
      simp [exchangeAndStore]
    · have hcr : cachedRecord st u := by
        cases h : st.memToken with
        | none =>
          simp only [loadMem, h] at hm
          exact Or.inr ⟨h, hm⟩
        | some v =>
          simp only [loadMem, h, Option.some.injEq] at hm
          exact Or.inl (by rw [h, hm])
      rw [getToken_of_not_usable st now (.ok t) false u hcr (hno u hcr)]
      simp [exchangeAndStore]
  · intro st now exch
    rcases hm : loadMem st.memToken st.diskToken with _ | u
    · simp only [GetToken, hm]
      cases exch <;> simp [exchangeAndStore]
    · simp only [GetToken, hm]
      by_cases hu : tokenUsable now u = true
      · simp [hu]
      · simp only [Bool.not_eq_true] at hu
        simp [hu]
        cases exch <;> simp [exchangeAndStore]

/-- Witness for C10: from an empty cache at time 0, a successful exchange
with a failing disk write still returns the token and caches it in
memory. -/
theorem getToken_ignores_save_failure_witness :
    (GetToken ⟨none, none⟩ 0 (.ok ⟨"fresh", "Bearer", 900⟩) false).result
        = .ok "fresh" ∧
    (GetToken ⟨none, none⟩ 0 (.ok ⟨"fresh", "Bearer", 900⟩) false).state.memToken
        = some ⟨"fresh", "Bearer", 900⟩ :=
  ⟨(getToken_ignores_save_failure.1 ⟨none, none⟩ 0 ⟨"fresh", "Bearer", 900⟩
      (fun u hu => by rcases hu with h | ⟨h, h2⟩ <;> simp_all)).1,
   (getToken_ignores_save_failure.1 ⟨none, none⟩ 0 ⟨"fresh", "Bearer", 900⟩
      (fun u hu => by rcases hu with h | ⟨h, h2⟩ <;> simp_all)).2.1⟩

/-! ## Interleaved semantics of the mutex-guarded critical section (C9)

`GetToken` runs its whole body under `tp.mu`.  The model below splits the
body of one logical caller into lock-guarded steps (acquire-and-lazy-load,
usability check, exchange-and-store-and-release) and lets any number of
callers interleave; the mutex is the `lock` field, acquired only when free
and demanded by every later step of the same caller. -/

/-- Control point of one logical caller running `GetToken`. -/
inductive Phase where
  | idle
  | check
  | exchanging
  | done (result : String)
deriving DecidableEq, Repr

/-- Shared state of one process: per-caller control points, the holder of
`tp.mu`, the provider's in-memory record, the on-disk cache and the number
of `exchangeToken` calls performed so far. -/
structure SyncState where
  threads   : List Phase
  lock      : Option Nat
  mem       : Option TokenCache
  disk      : Option TokenCache
  exchanges : Nat

/-- `tp.token != nil && time.Now().Add(5*time.Minute).Before(...)` on an
optional record. -/
def memUsable (now : Int) (m : Option TokenCache) : Bool :=
  match m with
  | none => false
  | some t => tokenUsable now t

/-- One interleaving step.  `fresh` is the record a (deterministic,
successful) `exchangeToken` produces during the run; `now` is the fixed
clock of the run. -/
inductive Step (now : Int) (fresh : TokenCache) : SyncState → SyncState → Prop where
  | acquire (s : SyncState) (i : Nat)
      (hi : s.threads[i]? = some .idle) (hl : s.lock = none) :
      Step now fresh s
        { s with threads := s.threads.set i .check,
                 lock := some i,
                 mem := loadMem s.mem s.disk }
  | checkHit (s : SyncState) (i : Nat) (t : TokenCache)
      (hi : s.threads[i]? = some .check) (hl : s.lock = some i)
      (hm : s.mem = some t) (hu : tokenUsable now t = true) :
      Step now fresh s
        { s with threads := s.threads.set i (.done t.accessToken),
                 lock := none }
  | checkMiss (s : SyncState) (i : Nat)
      (hi : s.threads[i]? = some .check) (hl : s.lock = some i)
      (hu : memUsable now s.mem = false) :
      Step now fresh s { s with threads := s.threads.set i .exchanging }
  | exchange (s : SyncState) (i : Nat)
      (hi : s.threads[i]? = some .exchanging) (hl : s.lock = some i) :
      Step now fresh s
        { s with threads := s.threads.set i (.done fresh.accessToken),
                 lock := none,
                 mem := some fresh,
                 disk := some fresh,
                 exchanges := s.exchanges + 1 }

/-- Zero or more interleaving steps. -/
def Reaches (now : Int) (fresh : TokenCache) : SyncState → SyncState → Prop :=
  Relation.ReflTransGen (Step now fresh)

/-- `n` callers about to invoke `GetToken` on a provider with no in-memory
record and an on-disk cache `disk`. -/
def initState (n : Nat) (disk : Option TokenCache) : SyncState :=
  ⟨List.replicate n .idle, none, none, disk, 0⟩

/-- Inductive invariant for the single-exchange property: the exchange
counter tracks whether the shared record has been refreshed, lock-holding
phases pin the lock, and finished callers saw the fresh token. -/
def SyncInv (_now : Int) (fresh : TokenCache) (disk₀ : Option TokenCache)
    (n : Nat) (s : SyncState) : Prop :=
  s.threads.length = n ∧
  ((s.exchanges = 0 ∧ (s.mem = none ∨ s.mem = disk₀) ∧ s.disk = disk₀) ∨
    (s.exchanges = 1 ∧ s.mem = some fresh ∧ s.disk = some fresh)) ∧
  (∀ i : Nat, s.threads[i]? = some Phase.exchanging →
    s.lock = some i ∧ s.exchanges = 0) ∧
  (∀ i : Nat, s.threads[i]? = some Phase.check → s.lock = some i) ∧
  (∀ (i : Nat) (r : String), s.threads[i]? = some (Phase.done r) →
    s.exchanges = 1 ∧ r = fresh.accessToken)

lemma syncInv_init (now : Int) (fresh : TokenCache) (disk₀ : Option TokenCache)
    (n : Nat) : SyncInv now fresh disk₀ n (initState n disk₀) := by
  refine ⟨List.length_replicate _ _, Or.inl ⟨rfl, Or.inl rfl, rfl⟩, ?_, ?_, ?_⟩
  · intro i hi
    rw [initState] at hi
    simp only [List.getElem?_replicate] at hi
    split at hi <;> simp_all
  · intro i hi
    rw [initState] at hi
    simp only [List.getElem?_replicate] at hi
    split at hi <;> simp_all
  · intro i r hi
    rw [initState] at hi
    simp only [List.getElem?_replicate] at hi
    split at hi <;> simp_all

lemma syncInv_step (now : Int) (fresh : TokenCache) (disk₀ : Option TokenCache)
    (n : Nat) (h₀ : memUsable now disk₀ = false)
    (hf : tokenUsable now fresh = true) (s s' : SyncState)
    (hstep : Step now fresh s s') (hinv : SyncInv now fresh disk₀ n s) :
    SyncInv now fresh disk₀ n s' := by
  obtain ⟨hlen, hdata, hexch, hcheck, hdone⟩ := hinv
  cases hstep with
  | acquire i hi hl =>
    refine ⟨by simpa using hlen, ?_, ?_, ?_, ?_⟩
    · rcases hdata with ⟨e0, hm, hd⟩ | ⟨e1, hm, hd⟩
      · refine Or.inl ⟨e0, ?_, hd⟩
        rcases hm with hm | hm
        · rw [hm, loadMem, hd]
          exact Or.inr rfl
        · rw [hm, hd]
          cases disk₀ with
          | none => exact Or.inl rfl
          | some d => exact Or.inr rfl
      · exact Or.inr ⟨e1, by rw [hm, loadMem], hd⟩
    · intro j hj
      by_cases hij : i = j
      · subst hij
        rw [List.getElem?_set_self', hi] at hj
        simp at hj
      · rw [List.getElem?_set_ne hij] at hj
        exact absurd (hexch j hj).1 (by simp [hl])
    · intro j hj
      by_cases hij : i = j
      · subst hij; rfl
      · rw [List.getElem?_set_ne hij] at hj
        exact absurd (hcheck j hj) (by simp [hl])
    · intro j r hj
      by_cases hij : i = j
      · subst hij
        rw [List.getElem?_set_self', hi] at hj
        simp at hj
      · rw [List.getElem?_set_ne hij] at hj
        exact hdone j r hj
  | checkHit i t hi hl hm hu =>
    have hfr : s.exchanges = 1 ∧ t = fresh := by
      rcases hdata with ⟨e0, hmm, hd⟩ | ⟨e1, hmm, hd⟩
      · rcases hmm with hmm | hmm
        · rw [hm] at hmm; exact absurd hmm (by simp)
        · rw [hm] at hmm
          rw [← hmm, memUsable, hu] at h₀
          exact absurd h₀ (by simp)
      · rw [hm] at hmm
        exact ⟨e1, by injection hmm⟩
    refine ⟨by simpa using hlen, ?_, ?_, ?_, ?_⟩
    · exact hdata
    · intro j hj
      by_cases hij : i = j
      · subst hij
        rw [List.getElem?_set_self', hi] at hj
        simp at hj
      · rw [List.getElem?_set_ne hij] at hj
        have := (hexch j hj).1
        rw [hl] at this
        exact absurd this (by simpa using hij)
    · intro j hj
      by_cases hij : i = j
      · subst hij
        rw [List.getElem?_set_self', hi] at hj
        simp at hj
      · rw [List.getElem?_set_ne hij] at hj
        have := hcheck j hj
        rw [hl] at this
        exact absurd this (by simpa using hij)
    · intro j r hj
      by_cases hij : i = j
      · subst hij
        rw [List.getElem?_set_self', hi] at hj
        simp only [Option.map_eq_map, Option.map_some', Option.some.injEq] at hj
        refine ⟨hfr.1, ?_⟩
        have : r = t.accessToken := by
          cases hj; rfl
        rw [this, hfr.2]
      · rw [List.getElem?_set_ne hij] at hj
        exact hdone j r hj
  | checkMiss i hi hl hu =>
    have e0 : s.exchanges = 0 := by
      rcases hdata with ⟨e0, hmm, hd⟩ | ⟨e1, hmm, hd⟩
      · exact e0
      · rw [hmm, memUsable, hf] at hu
        exact absurd hu (by simp)
    refine ⟨by simpa using hlen, hdata, ?_, ?_, ?_⟩
    · intro j hj
      by_cases hij : i = j
      · subst hij
        exact ⟨hl, e0⟩
      · rw [List.getElem?_set_ne hij] at hj
        have := (hexch j hj).1
        rw [hl] at this
        exact absurd this (by simpa using hij)
    · intro j hj
      by_cases hij : i = j
      · subst hij
        rw [List.getElem?_set_self', hi] at hj
        simp at hj
      · rw [List.getElem?_set_ne hij] at hj
        exact hcheck j hj
    · intro j r hj
      by_cases hij : i = j
      · subst hij
        rw [List.getElem?_set_self', hi] at hj
        simp at hj
      · rw [List.getElem?_set_ne hij] at hj
        exact absurd (hdone j r hj).1 (by simp [e0])
  | exchange i hi hl =>
    have e0 : s.exchanges = 0 := (hexch i hi).2
    refine ⟨by simpa using hlen, Or.inr ⟨by simp [e0], rfl, rfl⟩, ?_, ?_, ?_⟩
    · intro j hj
      by_cases hij : i = j
      · subst hij
        rw [List.getElem?_set_self', hi] at hj
        simp at hj
      · rw [List.getElem?_set_ne hij] at hj
        have := (hexch j hj).1
        rw [hl] at this
        exact absurd this (by simpa using hij)
    · intro j hj
      by_cases hij : i = j
      · subst hij
        rw [List.getElem?_set_self', hi] at hj
        simp at hj
      · rw [List.getElem?_set_ne hij] at hj
        have := hcheck j hj
        rw [hl] at this
        exact absurd this (by simpa using hij)
    · intro j r hj
      by_cases hij : i = j
      · subst hij
        rw [List.getElem?_set_self', hi] at hj
        simp only [Option.map_eq_map, Option.map_some', Option.some.injEq] at hj
        have : r = fresh.accessToken := by cases hj; rfl
        exact ⟨by simp [e0], this⟩
      · rw [List.getElem?_set_ne hij] at hj
        exact absurd (hdone j r hj).1 (by simp [e0])

lemma syncInv_reaches (now : Int) (fresh : TokenCache)
    (disk₀ : Option TokenCache) (n : Nat) (h₀ : memUsable now disk₀ = false)
    (hf : tokenUsable now fresh = true) (s : SyncState)
    (hr : Reaches now fresh (initState n disk₀) s) :
    SyncInv now fresh disk₀ n s := by
  induction hr with
  | refl => exact syncInv_init now fresh disk₀ n
  | tail _ hstep ih => exact syncInv_step now fresh disk₀ n h₀ hf _ _ hstep ih

/-- **C9.** With no usable cached record (neither in memory nor on disk)
and a deterministic successful exchange producing a usable record, any
interleaving of `n ≥ 1` concurrent `GetToken` callers that runs all of
them to completion performs exactly one exchange in total, and every
caller observes the fresh record's access token. -/
theorem concurrent_getToken_single_exchange (n : Nat)
    (disk₀ : Option TokenCache) (now : Int) (fresh : TokenCache)
    (s : SyncState) (hn : 0 < n) (h₀ : memUsable now disk₀ = false)
    (hf : tokenUsable now fresh = true)
    (hr : Reaches now fresh (initState n disk₀) s)
    (hall : ∀ p ∈ s.threads, ∃ r, p = Phase.done r) :
    s.exchanges = 1 ∧ ∀ p ∈ s.threads, p = Phase.done fresh.accessToken := by
  obtain ⟨hlen, _, _, _, hdone⟩ :=
    syncInv_reaches now fresh disk₀ n h₀ hf s hr
  have hne : 0 < s.threads.length := hlen ▸ hn
  have h0 : s.threads[0]? = some s.threads[0] := List.getElem?_eq_getElem hne
  obtain ⟨r0, hr0⟩ := hall _ (List.getElem_mem hne)
  have hx : s.exchanges = 1 := (hdone 0 r0 (by rw [h0, hr0])).1
  refine ⟨hx, ?_⟩
  intro p hp
  obtain ⟨r, hpr⟩ := hall p hp
  obtain ⟨j, hj⟩ := List.mem_iff_getElem?.mp hp
  have := hdone j r (by rw [hj, hpr])
  rw [hpr, this.2]

/-- Witness for C9: one caller, empty caches, exchange at time 0 yielding
a record valid until time 1000 — the terminal state has exactly one
exchange. -/
theorem concurrent_getToken_single_exchange_witness :
    (⟨[Phase.done "fresh"], none, some ⟨"fresh", "Bearer", 1000⟩,
        some ⟨"fresh", "Bearer", 1000⟩, 1⟩ : SyncState).exchanges = 1 ∧
    ∀ p ∈ (⟨[Phase.done "fresh"], none, some ⟨"fresh", "Bearer", 1000⟩,
        some ⟨"fresh", "Bearer", 1000⟩, 1⟩ : SyncState).threads,
      p = Phase.done (TokenCache.mk "fresh" "Bearer" 1000).accessToken := by
  have hstep1 : Step 0 ⟨"fresh", "Bearer", 1000⟩ (initState 1 none)
      ⟨[Phase.check], some 0, none, none, 0⟩ :=
    Step.acquire (initState 1 none) 0 rfl rfl
  have hstep2 : Step 0 ⟨"fresh", "Bearer", 1000⟩
      ⟨[Phase.check], some 0, none, none, 0⟩
      ⟨[Phase.exchanging], some 0, none, none, 0⟩ :=
    Step.checkMiss ⟨[Phase.check], some 0, none, none, 0⟩ 0 rfl rfl rfl
  have hstep3 : Step 0 ⟨"fresh", "Bearer", 1000⟩
      ⟨[Phase.exchanging], some 0, none, none, 0⟩
      ⟨[Phase.done "fresh"], none, some ⟨"fresh", "Bearer", 1000⟩,
        some ⟨"fresh", "Bearer", 1000⟩, 1⟩ :=
    Step.exchange ⟨[Phase.exchanging], some 0, none, none, 0⟩ 0 rfl rfl
  exact concurrent_getToken_single_exchange 1 none 0 ⟨"fresh", "Bearer", 1000⟩
    _ (by decide) (by decide) (by decide)
    (Relation.ReflTransGen.head hstep1
      (Relation.ReflTransGen.head hstep2
        (Relation.ReflTransGen.head hstep3 Relation.ReflTransGen.refl)))
    (by intro p hp; simp only [List.mem_singleton] at hp; exact ⟨"fresh", hp⟩)

/-! ## Filter-token grammar (cmd/root.go, parseFilters)

`strings.Index` works on bytes; the model below works on characters.
The two agree here: the operators are ASCII, and in UTF-8 an ASCII byte
never occurs inside the encoding of a multi-byte character, so an
operator occurs at byte position 0 exactly when it occurs at character
position 0 and both slicings cut the token at the same occurrence. -/

/-- The filter operators of the query DSL (the enum behind
`models.ParseFilterOperator`; §3 of the design lists exactly these). -/
inductive FilterOperator where
  | EQUALS
  | CONTAINS
  | NOT_CONTAINS
  | IN
  | GREATER_THAN
  | LESS_THAN
  | GREATER_THAN_OR_EQUAL
  | LESS_THAN_OR_EQUAL
deriving DecidableEq, Repr

/-- `models.Condition`: `{field name, operator, values}`. -/
structure Condition where
  field    : String
  operator : FilterOperator
  values   : List String
deriving DecidableEq, Repr

/-- Modelled from the spec: `models.ParseFilterOperator` — its defining
file under `internal/models` is not among the provided sources.  The
mapping follows §3 (operator enum) and the §8 examples
(`=`→EQUALS, `>`→GREATER_THAN, `@`→IN, `!~`→NOT_CONTAINS); `parseFilters`
only ever applies it to the eight operator strings below, so the
fall-through arm is never reached from `parseFilters`. -/
def ParseFilterOperator : String → FilterOperator
  | "=" => .EQUALS
  | "~" => .CONTAINS
  | "!~" => .NOT_CONTAINS
  | "@" => .IN
  | ">" => .GREATER_THAN
  | "<" => .LESS_THAN
  | ">=" => .GREATER_THAN_OR_EQUAL
  | "<=" => .LESS_THAN_OR_EQUAL
  | _ => .EQUALS

/-- `pat` occurs at the start of `l` (Go `strings.HasPrefix`). -/
def startsWith : List Char → List Char → Bool
  | _, [] => true
  | [], _ :: _ => false
  | c :: cs, p :: ps => c = p && startsWith cs ps

/-- Character index of the first occurrence of `pat` in `l`
(Go `strings.Index`; `none` models Go's `-1`). -/
def indexOfSubstr (l pat : List Char) : Option Nat :=
  if startsWith l pat then some 0
  else
    match l with
    | [] => none
    | _ :: rest => (indexOfSubstr rest pat).map (· + 1)

/-- Go `strings.Split` on a single-character separator. -/
def splitOnSep (sep : Char) : List Char → List (List Char)
  | [] => [[]]
  | c :: rest =>
    if c = sep then [] :: splitOnSep sep rest
    else
      match splitOnSep sep rest with
      | [] => [[c]]
      | g :: gs => (c :: g) :: gs

/-- `strings.Split(value, ",")` on the model's strings. -/
def splitCommas (s : String) : List String :=
  (splitOnSep ',' s.data).map fun l => ⟨l⟩

/-- The operator list tried by `parseFilters`, multi-character operators
first. -/
def filterOperators : List String := [">=", "<=", "!~", "=", "~", "@", ">", "<"]

/-- The operator search inside `parseFilters`'s loop: the first operator
of `filterOperators` whose first occurrence in `f` is at a position
greater than 0 (`idx := strings.Index(f, op); if idx > 0`). -/
def findOperator (f : String) : Option (String × Nat) :=
  filterOperators.findSome? fun op =>
    match indexOfSubstr f.data op.data with
    | some idx => if 0 < idx then some (op, idx) else none
    | none => none

/-- The body of `parseFilters`'s loop for one filter token: text before
the operator is the field, text after it the value; only `@` splits its
value on commas. -/
def parseFilterToken (f : String) : Option Condition :=
  match findOperator f with
  | none => none
  | some (op, idx) =>
    let field : String := ⟨f.data.take idx⟩
    let value : String := ⟨f.data.drop (idx + op.length)⟩
    let values := if op = "@" then splitCommas value else [value]
    some ⟨field, ParseFilterOperator op, values⟩

/-- `parseFilters` from `cmd/root.go`: each token contributes at most one
`Condition`, in input order; tokens with no operator are skipped. -/
def parseFilters (filters : List String) : List Condition :=
  filters.filterMap parseFilterToken

/-- **C4.** One filter token parses by the grammar: the first operator of
`>=, <=, !~, =, ~, @, >, <` (in that try order) found at a position
greater than 0 wins, the text before it is the field, the text after it
the value, and only `@` splits its value on commas; in particular the
four examples of the claim parse as stated. -/
theorem parseFilterToken_grammar :
    (∀ (f op : String) (idx : Nat), findOperator f = some (op, idx) →
      parseFilterToken f =
        some ⟨⟨f.data.take idx⟩, ParseFilterOperator op,
          if op = "@" then splitCommas ⟨f.data.drop (idx + op.length)⟩
          else [⟨f.data.drop (idx + op.length)⟩]⟩)
    ∧ parseFilters ["status=ENABLED"] =
        [⟨"status", .EQUALS, ["ENABLED"]⟩]
    ∧ parseFilters ["id>1000"] = [⟨"id", .GREATER_THAN, ["1000"]⟩]
    ∧ parseFilters ["status@ENABLED,PAUSED"] =
        [⟨"status", .IN, ["ENABLED", "PAUSED"]⟩]
    ∧ parseFilters ["name!~Test"] = [⟨"name", .NOT_CONTAINS, ["Test"]⟩] := by
  refine ⟨?_, by decide, by decide, by decide, by decide⟩
  intro f op idx h
  simp [parseFilterToken, h]

/-- Witness for C4: the grammar clause applied to the concrete token
`"a=b"`. -/
theorem parseFilterToken_grammar_witness :
    parseFilterToken "a=b" = some ⟨"a", .EQUALS, ["b"]⟩ :=
  (parseFilterToken_grammar.1 "a=b" "=" 1 (by decide)).trans (by decide)

/-- **C8.** `parseFilters` is total and lenient: a token with no operator
found at a position greater than 0 contributes nothing, every other token
contributes exactly one condition, and the output for a list is the
concatenation of the outputs for its parts — malformed tokens in the
middle do not disturb the rest. -/
theorem parseFilters_leniency :
    (∀ f : String, findOperator f = none → parseFilterToken f = none)
    ∧ (∀ f : String, findOperator f ≠ none → ∃ c, parseFilterToken f = some c)
    ∧ (∀ l₁ l₂ : List String,
        parseFilters (l₁ ++ l₂) = parseFilters l₁ ++ parseFilters l₂)
    ∧ parseFilters ["status=ENABLED", "bogus", "id>1000"] =
        parseFilters ["status=ENABLED"] ++ parseFilters ["id>1000"]
    ∧ parseFilters ["=ENABLED"] = [] := by
  refine ⟨?_, ?_, ?_, by decide, by decide⟩
  · intro f h
    simp [parseFilterToken, h]
  · intro f h
    match hf : findOperator f with
    | none => exact absurd hf h
    | some (op, idx) =>
      exact ⟨⟨⟨f.data.take idx⟩, ParseFilterOperator op,
        if op = "@" then splitCommas ⟨f.data.drop (idx + op.length)⟩
        else [⟨f.data.drop (idx + op.length)⟩]⟩, by simp [parseFilterToken, hf]⟩
  · intro l₁ l₂
    simp [parseFilters]

/-- Witness for C8: a token with no operator is silently dropped. -/
theorem parseFilters_leniency_witness :
    parseFilterToken "nooperator" = none :=
  parseFilters_leniency.1 "nooperator" (by decide)

/-! ## Authenticating-transport trace (internal/auth/transport.go)

The verbose trace of `RoundTrip` prints the request line, the request
headers after injection, and the response status line.  Headers are
modelled as an association list from canonical key to value slice (Go's
`http.Header` is a map; its unspecified iteration order is fixed by the
list order here, which only fixes the order of the traced lines). -/

/-- `net/textproto` canonicalization applied by `http.Header.Set`: the
first letter and each letter following a hyphen are upper-cased, all
other letters lower-cased — so `Set("X-AP-Context", …)` stores the key
`"X-Ap-Context"`, the exact string the redaction switch in `RoundTrip`
matches on. -/
def canonChars : Bool → List Char → List Char
  | _, [] => []
  | upper, c :: rest =>
    (if upper then c.toUpper else c.toLower) :: canonChars (c = '-') rest

/-- Canonical form of a header key. -/
def canonicalMIMEHeaderKey (s : String) : String :=
  ⟨canonChars true s.data⟩

/-- `http.Header.Set` on the association-list model: replace the entry
with the canonical key, or append one. -/
def setHeaderEntry : List (String × List String) → String → String →
    List (String × List String)
  | [], ck, v => [(ck, [v])]
  | (k, vs) :: rest, ck, v =>
    if k = ck then (ck, [v]) :: rest else (k, vs) :: setHeaderEntry rest ck v

/-- `req.Header.Set(k, v)`. -/
def headerSet (h : List (String × List String)) (k v : String) :
    List (String × List String) :=
  setHeaderEntry h (canonicalMIMEHeaderKey k) v

/-- `fmt.Printf` rendering of a `[]string` header value. -/
def renderValues (vs : List String) : String :=
  "[" ++ String.intercalate " " vs ++ "]"

/-- One traced header line of `RoundTrip`: the `Authorization` and
`X-Ap-Context` cases print fixed placeholder strings, every other header
prints its value. -/
def traceHeaderLine (k : String) (vs : List String) : String :=
  if k = "Authorization" then "> " ++ k ++ ": Bearer ***"
  else if k = "X-Ap-Context" then "> " ++ k ++ ": orgId=***"
  else "> " ++ k ++ ": " ++ renderValues vs

/-- The verbose trace printed by `Transport.RoundTrip`: the request line,
one line per header of the cloned request after injecting
`Authorization: Bearer <token>` and (when an org id is configured)
`X-AP-Context: orgId=<id>`, and the response status line. -/
def roundTripTrace (method url token orgID : String)
    (h₀ : List (String × List String)) (respStatus respProto : String) :
    List String :=
  let h₁ := headerSet h₀ "Authorization" ("Bearer " ++ token)
  let h₂ := if orgID = "" then h₁
    else headerSet h₁ "X-AP-Context" ("orgId=" ++ orgID)
  ("> " ++ method ++ " " ++ url)
    :: (h₂.map fun kv => traceHeaderLine kv.1 kv.2)
    ++ ["< " ++ respStatus ++ " " ++ respProto]

/-- Two header lists that agree everywhere except possibly in the values
stored under the two redacted keys. -/
def RedactEq (h₁ h₂ : List (String × List String)) : Prop :=
  List.Forall₂
    (fun a b => a.1 = b.1 ∧
      (a.2 = b.2 ∨ a.1 = "Authorization" ∨ a.1 = "X-Ap-Context")) h₁ h₂

lemma redactEq_refl (h : List (String × List String)) : RedactEq h h :=
  List.forall₂_same.mpr fun _ _ => ⟨rfl, Or.inl rfl⟩

lemma redactEq_setEntry (h₁ h₂ : List (String × List String))
    (hr : RedactEq h₁ h₂) (ck v₁ v₂ : String)
    (hck : ck = "Authorization" ∨ ck = "X-Ap-Context") :
    RedactEq (setHeaderEntry h₁ ck v₁) (setHeaderEntry h₂ ck v₂) := by
  induction hr with
  | nil =>
    exact List.Forall₂.cons ⟨rfl, Or.inr hck⟩ List.Forall₂.nil
  | cons hab hrest ih =>
    rename_i a b l₁ l₂
    obtain ⟨hk, hv⟩ := hab
    by_cases hfst : a.1 = ck
    · have hbfst : b.1 = ck := hk ▸ hfst
      simp only [setHeaderEntry, hfst, hbfst, if_pos]
      exact List.Forall₂.cons ⟨rfl, Or.inr hck⟩ hrest
    · have hbfst : b.1 ≠ ck := hk ▸ hfst
      simp only [setHeaderEntry, hfst, hbfst, ite_false, if_neg]
      exact List.Forall₂.cons ⟨hk, hv⟩ ih

lemma redactEq_trace (h₁ h₂ : List (String × List String))
    (hr : RedactEq h₁ h₂) :
    (h₁.map fun kv => traceHeaderLine kv.1 kv.2)
      = h₂.map fun kv => traceHeaderLine kv.1 kv.2 := by
  induction hr with
  | nil => rfl
  | cons hab hrest ih =>
    rename_i a b l₁ l₂
    obtain ⟨hk, hv⟩ := hab
    simp only [List.map_cons, ih]
    rcases hv with hv | hv | hv
    · rw [hk, hv]
    · simp [traceHeaderLine, hv, hk ▸ hv]
    · simp [traceHeaderLine, hv, hk ▸ hv]

/-- **C6.** The verbose trace of the authenticating transport is the same
for every pair of bearer tokens and every pair of configured (non-empty)
organization ids: the `Authorization` and `X-Ap-Context` lines print
fixed placeholders, so neither the token nor the org id reaches the
output. -/
theorem transport_trace_redacts (method url : String)
    (h₀ : List (String × List String)) (t₁ t₂ o₁ o₂ : String)
    (ho₁ : o₁ ≠ "") (ho₂ : o₂ ≠ "") (respStatus respProto : String) :
    roundTripTrace method url t₁ o₁ h₀ respStatus respProto =
      roundTripTrace method url t₂ o₂ h₀ respStatus respProto := by
  have hA : canonicalMIMEHeaderKey "Authorization" = "Authorization" := by decide
  have hX : canonicalMIMEHeaderKey "X-AP-Context" = "X-Ap-Context" := by decide
  have r1 : RedactEq (headerSet h₀ "Authorization" ("Bearer " ++ t₁))
      (headerSet h₀ "Authorization" ("Bearer " ++ t₂)) := by
    unfold headerSet
    rw [hA]
    exact redactEq_setEntry _ _ (redactEq_refl h₀) _ _ _ (Or.inl rfl)
  have r2 : RedactEq
      (headerSet (headerSet h₀ "Authorization" ("Bearer " ++ t₁))
        "X-AP-Context" ("orgId=" ++ o₁))
      (headerSet (headerSet h₀ "Authorization" ("Bearer " ++ t₂))
        "X-AP-Context" ("orgId=" ++ o₂)) := by
    unfold headerSet
    rw [hX]
    exact redactEq_setEntry _ _ r1 _ _ _ (Or.inr rfl)
  unfold roundTripTrace
  simp only [if_neg ho₁, if_neg ho₂]
  rw [redactEq_trace _ _ r2]

/-- Witness for C6: two concrete requests differing in token and org id
produce the identical trace. -/
theorem transport_trace_redacts_witness :
    roundTripTrace "GET" "https://api.searchads.apple.com/api/v5/campaigns"
        "tokenA" "123" [("Accept", ["application/json"])] "200 OK" "HTTP/1.1"
      = roundTripTrace "GET" "https://api.searchads.apple.com/api/v5/campaigns"
        "tokenB" "456" [("Accept", ["application/json"])] "200 OK" "HTTP/1.1" :=
  transport_trace_redacts "GET" "https://api.searchads.apple.com/api/v5/campaigns"
    [("Accept", ["application/json"])] "tokenA" "tokenB" "123" "456"
    (by decide) (by decide) "200 OK" "HTTP/1.1"

/-! ## Token exchange (internal/auth/auth.go, exchangeToken) -/

/-- The parsed success body `{access_token, token_type, expires_in}`. -/
structure TokenResp where
  access_token : String
  token_type   : String
  expires_in   : Int
deriving DecidableEq, Repr

/-- The short provider code of a failed exchange: present exactly when
`json.Unmarshal` of the body into `{error}` succeeds and the field is
non-empty. -/
def shortErrorCode {β : Type} (unmarshalErr : β → Option String)
    (body : β) : Option String :=
  match unmarshalErr body with
  | some e => if e = "" then none else some e
  | none => none

/-- The `token exchange failed (HTTP %d)` message, with the short
provider code appended when present — a function of the status and that
code only, never of the body itself. -/
def tokenExchangeFailedMsg (status : Nat) (sc : Option String) : String :=
  match sc with
  | some e => "token exchange failed (HTTP " ++ toString status ++ "): " ++ e
  | none => "token exchange failed (HTTP " ++ toString status ++ ")"

/-- `exchangeToken` from `internal/auth/auth.go`.  `secret` is the
outcome of `generateClientSecret`, `net` the outcome of `http.PostForm`
(`none` = request failure, otherwise status code and body),
`unmarshalErr` / `unmarshalTok` model `json.Unmarshal` of the body into
the error and token shapes, and `now` is the clock when a successful
response is parsed.  The status test is `resp.StatusCode !=
http.StatusOK`, i.e. exactly 200. -/
def exchangeToken {β : Type} (unmarshalErr : β → Option String)
    (unmarshalTok : β → Option TokenResp) (secret : Except String String)
    (net : Option (Nat × β)) (now : Int) : Except String TokenCache :=
  match secret with
  | .error e => .error ("generating client secret: " ++ e)
  | .ok _ =>
    match net with
    | none => .error "token exchange request failed"
    | some (status, body) =>
      if status ≠ 200 then
        match unmarshalErr body with
        | some e =>
          if e ≠ "" then
            .error ("token exchange failed (HTTP " ++ toString status
              ++ "): " ++ e)
          else
            .error ("token exchange failed (HTTP " ++ toString status ++ ")")
        | none =>
          .error ("token exchange failed (HTTP " ++ toString status ++ ")")
      else
        match unmarshalTok body with
        | none => .error "parsing token response"
        | some tr => .ok ⟨tr.access_token, tr.token_type, now + tr.expires_in⟩

/-- **C3 counterexample.** A response with the 2xx status 201 and a
perfectly parsable token body is rejected: the source tests
`resp.StatusCode != http.StatusOK`, not "any 2xx". -/
theorem exchangeToken_201_rejected :
    exchangeToken (β := Option String × Option TokenResp) Prod.fst Prod.snd
      (.ok "assertion") (some (201, (none, some ⟨"tok", "Bearer", 3600⟩))) 0
      = .error "token exchange failed (HTTP 201)" := by
  rfl

/-- **C3 (amended: status exactly 200 instead of 2xx).** Given a
generated client secret, the exchange succeeds iff the request went
through with status exactly 200 and a parsable token body; on success the
expiry is `now + expires_in` seconds; on any other status the error is a
function of the status code and the optional short provider code alone
(never of the rest of the body); a network failure is an error. -/
theorem exchangeToken_semantics {β : Type} (uErr : β → Option String)
    (uTok : β → Option TokenResp) (s : String) (net : Option (Nat × β))
    (now : Int) :
    ((∃ t, exchangeToken uErr uTok (.ok s) net now = .ok t) ↔
      (∃ body tr, net = some (200, body) ∧ uTok body = some tr))
    ∧ (∀ body tr, net = some (200, body) → uTok body = some tr →
        exchangeToken uErr uTok (.ok s) net now
          = .ok ⟨tr.access_token, tr.token_type, now + tr.expires_in⟩)
    ∧ (∀ status body, net = some (status, body) → status ≠ 200 →
        exchangeToken uErr uTok (.ok s) net now
          = .error (tokenExchangeFailedMsg status (shortErrorCode uErr body)))
    ∧ (net = none →
        exchangeToken uErr uTok (.ok s) net now
          = .error "token exchange request failed") := by
  refine ⟨⟨?_, ?_⟩, ?_, ?_, ?_⟩
  · rintro ⟨t, ht⟩
    match hnet : net with
    | none => exact absurd ht (by simp [exchangeToken])
    | some (status, body) =>
      by_cases hst : status = 200
      · subst hst
        match htok : uTok body with
        | none =>
          rw [exchangeToken] at ht
          simp [htok] at ht
        | some tr => exact ⟨body, tr, rfl, htok⟩
      · rw [exchangeToken] at ht
        simp only [if_pos hst] at ht
        rcases huerr : uErr body with _ | e <;> rw [huerr] at ht
        · simp at ht
        · by_cases he : e = "" <;> simp [he] at ht
  · rintro ⟨body, tr, hnet, htok⟩
    exact ⟨⟨tr.access_token, tr.token_type, now + tr.expires_in⟩,
      by simp [exchangeToken, hnet, htok]⟩
  · intro body tr hnet htok
    simp [exchangeToken, hnet, htok]
  · intro status body hnet hst
    match huerr : uErr body with
    | none =>
      simp [exchangeToken, hnet, hst, huerr, tokenExchangeFailedMsg,
        shortErrorCode]
    | some e =>
      by_cases he : e = "" <;>
        simp [exchangeToken, hnet, hst, huerr, he, tokenExchangeFailedMsg,
          shortErrorCode]
  · intro hnet
    simp [exchangeToken, hnet]

/-- Witness for the amended C3: a concrete 200 response with a parsable
body succeeds with expiry `now + expires_in`. -/
theorem exchangeToken_semantics_witness :
    exchangeToken (β := Option String × Option TokenResp) Prod.fst Prod.snd
      (.ok "assertion") (some (200, (none, some ⟨"tok", "Bearer", 3600⟩))) 10
      = .ok ⟨"tok", "Bearer", 3610⟩ :=
  ((exchangeToken_semantics (β := Option String × Option TokenResp)
      Prod.fst Prod.snd "assertion"
      (some (200, (none, some ⟨"tok", "Bearer", 3600⟩))) 10).2.1
    (none, some ⟨"tok", "Bearer", 3600⟩) ⟨"tok", "Bearer", 3600⟩ rfl rfl).trans
    (by rfl)

/-! ## Organization resolution (cmd/root.go, resolveOrgID / newAPIClient) -/

/-- `models.UserACL` as consumed by `resolveOrgID`: the organization id
and display name. -/
structure UserACL where
  orgId   : Int
  orgName : String
deriving DecidableEq, Repr

/-- `resolveOrgID` from `cmd/root.go`: fetch `/acls` (`net`: `none` =
request failure, `some body` otherwise), unmarshal the `{data: [...]}`
envelope (`unmarshalACL`), then succeed only on exactly one entry,
returning its id rendered in base 10 (`strconv.FormatInt`). -/
def resolveOrgID {β : Type} (unmarshalACL : β → Option (List UserACL))
    (net : Option β) : Except String String :=
  match net with
  | none => .error "fetching orgs"
  | some body =>
    match unmarshalACL body with
    | none => .error "parsing org response"
    | some acls =>
      match acls with
      | [] => .error "no organizations found for this account"
      | [a] => .ok (toString a.orgId)
      | _ =>
        .error ("multiple organizations found. Use --org-id flag or set org_id in config:\n"
          ++ String.intercalate "\n"
            (acls.map fun acl =>
              "  " ++ acl.orgName ++ " (ID: " ++ toString acl.orgId ++ ")"))

/-- The org-id precedence of `newAPIClient`: the `--org-id` flag wins over
the configuration value, and only when both are empty is the `/acls`
auto-resolution (`auto`) consulted. -/
def clientOrgID (globalOrgID cfgOrgID : String)
    (auto : Except String String) : Except String String :=
  let orgID := if globalOrgID ≠ "" then globalOrgID else cfgOrgID
  if orgID = "" then auto else .ok orgID

/-- **C5.** With no org id from flag or configuration, `newAPIClient`
defers to the `/acls` resolution, which succeeds exactly when the decoded
list has exactly one organization — returning that organization's id —
and errors on zero or two-plus organizations, never picking a default. -/
theorem resolveOrgID_exactly_one {β : Type}
    (u : β → Option (List UserACL)) (net : Option β) :
    ((∃ id, resolveOrgID u net = .ok id) ↔
      (∃ body a, net = some body ∧ u body = some [a]))
    ∧ (∀ body a, net = some body → u body = some [a] →
        resolveOrgID u net = .ok (toString a.orgId))
    ∧ (∀ body acls, net = some body → u body = some acls →
        acls.length ≠ 1 → ∃ e, resolveOrgID u net = .error e)
    ∧ (∀ g c, g = "" → c = "" →
        clientOrgID g c (resolveOrgID u net) = resolveOrgID u net) := by
  refine ⟨⟨?_, ?_⟩, ?_, ?_, ?_⟩
  · rintro ⟨id, hid⟩
    match hnet : net with
    | none => exact absurd hid (by simp [resolveOrgID])
    | some body =>
      match hacl : u body with
      | none =>
        rw [resolveOrgID] at hid
        simp [hacl] at hid
      | some [] =>
        rw [resolveOrgID] at hid
        simp [hacl] at hid
      | some [a] => exact ⟨body, a, rfl, hacl⟩
      | some (a :: b :: rest) =>
        rw [resolveOrgID] at hid
        simp [hacl] at hid
  · rintro ⟨body, a, hnet, hacl⟩
    exact ⟨toString a.orgId, by simp [resolveOrgID, hnet, hacl]⟩
  · intro body a hnet hacl
    simp [resolveOrgID, hnet, hacl]
  · intro body acls hnet hacl hlen
    match acls, hlen with
    | [], _ =>
      exact ⟨"no organizations found for this account",
        by simp [resolveOrgID, hnet, hacl]⟩
    | a :: b :: rest, _ =>
      exact ⟨"multiple organizations found. Use --org-id flag or set org_id in config:\n"
        ++ String.intercalate "\n"
          ((a :: b :: rest).map fun acl =>
            "  " ++ acl.orgName ++ " (ID: " ++ toString acl.orgId ++ ")"),
        by simp [resolveOrgID, hnet, hacl]⟩
    | [a], h => exact absurd rfl h
  · intro g c hg hc
    subst hg; subst hc
    rfl

/-- Witness for C5: a single-organization ACL response resolves to that
organization's id. -/
theorem resolveOrgID_exactly_one_witness :
    resolveOrgID (β := List UserACL) some (some [⟨42, "Acme"⟩])
      = .ok "42" :=
  ((resolveOrgID_exactly_one (β := List UserACL) some
      (some [⟨42, "Acme"⟩])).2.1 [⟨42, "Acme"⟩] ⟨42, "Acme"⟩ rfl rfl).trans
    (by rfl)

/-! ## The signed assertion (internal/auth/auth.go, generateClientSecret) -/

/-- `config.Config`: the credential identifiers. -/
structure Config where
  clientID       : String
  teamID         : String
  keyID          : String
  orgID          : String
  privateKeyPath : String
deriving DecidableEq, Repr

/-- `tokenAud`: the fixed identity-provider audience. -/
def tokenAud : String := "https://appleid.apple.com"

/-- `jwtLifetime = 180 * 24 * time.Hour` in seconds (180 days). -/
def jwtLifetime : Int := 180 * 24 * 60 * 60

/-- The header key id and registered claims of the assertion built by
`generateClientSecret` (the ES256 signature bytes over them are not
modelled; the contract concerns the claim values). -/
structure SignedAssertion where
  kid       : String
  issuer    : String
  subject   : String
  audience  : List String
  issuedAt  : Int
  expiresAt : Int
deriving DecidableEq, Repr

/-- `generateClientSecret` from `internal/auth/auth.go`: fails exactly
when `loadPrivateKey` fails (`keyLoad` its outcome), otherwise signs
`{iss = TeamID, sub = ClientID, aud = [tokenAud], iat = now,
exp = now + jwtLifetime}` with header `kid = KeyID`. -/
def generateClientSecret (cfg : Config) (now : Int)
    (keyLoad : Except String Unit) : Except String SignedAssertion :=
  match keyLoad with
  | .error e => .error e
  | .ok _ => .ok
      { kid := cfg.keyID
        issuer := cfg.teamID
        subject := cfg.clientID
        audience := [tokenAud]
        issuedAt := now
        expiresAt := now + jwtLifetime }

/-- **C7.** Every assertion produced by `generateClientSecret` carries
`kid = KeyID`, `iss = TeamID`, `sub = ClientID`, the fixed audience,
`iat = now` and `exp = iat + 180 days` — exactly 180 days, never more. -/
theorem assertion_claims (cfg : Config) (now : Int)
    (keyLoad : Except String Unit) (a : SignedAssertion)
    (h : generateClientSecret cfg now keyLoad = .ok a) :
    a.kid = cfg.keyID ∧ a.issuer = cfg.teamID ∧ a.subject = cfg.clientID ∧
    a.audience = [tokenAud] ∧ a.issuedAt = now ∧
    a.expiresAt = a.issuedAt + jwtLifetime ∧
    a.expiresAt - a.issuedAt ≤ 180 * 24 * 60 * 60 := by
  match keyLoad with
  | .error e => exact absurd h (by simp [generateClientSecret])
  | .ok _ =>
    rw [generateClientSecret] at h
    cases h
    refine ⟨rfl, rfl, rfl, rfl, rfl, rfl, ?_⟩
    simp [jwtLifetime]

/-- Witness for C7 at a concrete credential set and time. -/
theorem assertion_claims_witness :
    (SignedAssertion.kid
        ⟨"KEYID", "TEAMID", "CLIENTID", [tokenAud], 5, 5 + jwtLifetime⟩
      = "KEYID") ∧
    (SignedAssertion.expiresAt
        ⟨"KEYID", "TEAMID", "CLIENTID", [tokenAud], 5, 5 + jwtLifetime⟩
      - SignedAssertion.issuedAt
        ⟨"KEYID", "TEAMID", "CLIENTID", [tokenAud], 5, 5 + jwtLifetime⟩
      ≤ 180 * 24 * 60 * 60) :=
  ⟨(assertion_claims ⟨"CLIENTID", "TEAMID", "KEYID", "", "/k.pem"⟩ 5
      (.ok ()) _ rfl).1,
   (assertion_claims ⟨"CLIENTID", "TEAMID", "KEYID", "", "/k.pem"⟩ 5
      (.ok ()) _ rfl).2.2.2.2.2.2⟩

/-! ## Token-cache location (internal/auth/auth.go cachePath, config.ConfigDir) -/

/-- `config.ConfigDir()` from `internal/config`:
`filepath.Join(home, ".asa-cli")`.  It does not consult the active
profile — `config.SetProfile` only selects which section of `config.yaml`
`Load` reads. -/
def ConfigDir (home : String) : String := home ++ "/.asa-cli"

/-- `cachePath()` from `internal/auth/auth.go`:
`filepath.Join(config.ConfigDir(), "token_cache.json")`. -/
def cachePath (home : String) : String :=
  ConfigDir home ++ "/token_cache.json"

/-- The cache-file path `GetToken`'s load and save use when the CLI runs
under a given configuration profile: `cachePath` takes no profile input
at all, so the profile is ignored. -/
def cachePathForProfile (home : String) (_profile : String) : String :=
  cachePath home

/-- **C2 counterexample.** Two distinct profiles resolve to the same
token-cache file. -/
theorem cachePath_shared_across_profiles :
    "alpha" ≠ "beta" ∧
    cachePathForProfile "/home/u" "alpha"
      = cachePathForProfile "/home/u" "beta" :=
  ⟨by decide, rfl⟩

/-- **C2 (amended).** The token-cache path is independent of the profile:
every profile uses the single file `<ConfigDir>/token_cache.json`. -/
theorem cachePath_profile_independent (home p₁ p₂ : String) :
    cachePathForProfile home p₁ = cachePathForProfile home p₂ ∧
    cachePathForProfile home p₁ = ConfigDir home ++ "/token_cache.json" :=
  ⟨rfl, rfl⟩

end AsaCli
